import Mathlib

/-!
Verification development for the COS750-project micro-quiz pipeline.

The admin analytics aggregation is embedded from
`src/pages/Admin/Admin.tsx`; the quiz client helpers are embedded from
`src/pages/Quiz/MicroQuizRunner.tsx`.  Components whose implementation is
not part of the repository excerpt (Shuffle Engine, Grading Dispatcher,
Attempt Ledger) are modelled from the specification, and are marked as
such in their doc comments.
-/

namespace COS750

/-- One analytics row, embedded from the `AttemptRow` type of
`src/pages/Admin/Admin.tsx`.  JS numbers that are used as counts/marks are
modelled as `Nat`; `lo_ids` entries as `Int`; `error_class` is nullable. -/
structure AttemptRow where
  ts : Nat
  student_id : String
  session_id : String
  mq_id : String
  item_id : String
  lo_ids : List Int
  pass_fail : Nat
  attempts : Nat
  time_ms : Nat
  error_class : Option String
  remedial_clicked : Bool
  marks_awarded : Nat
  marks_possible : Nat
deriving Repr, DecidableEq

/-- Per-learning-outcome rollup, embedded from the `LOStat` type of
`src/pages/Admin/Admin.tsx`.  `errorCounts` is a JS object mapping the error
tag to a count; string-keyed JS objects preserve insertion order, so it is
modelled as an association list in first-seen order. -/
structure LOStat where
  loId : Int
  attempts : Nat
  passCount : Nat
  totalMarksAwarded : Nat
  totalMarksPossible : Nat
  errorCounts : List (String × Nat)
deriving Repr, DecidableEq

/-- The zero-initialised stat installed by `loMap.set(lo, {...})` in
`Admin.tsx` when an LO id is first seen. -/
def freshStat (lo : Int) : LOStat :=
  { loId := lo, attempts := 0, passCount := 0, totalMarksAwarded := 0
    totalMarksPossible := 0, errorCounts := [] }

/-- `stat.errorCounts[key] = (stat.errorCounts[key] || 0) + 1`: increment the
count stored under `k`, installing the key at the end on first use. -/
def bumpError : List (String × Nat) → String → List (String × Nat)
  | [], k => [(k, 1)]
  | (k', n) :: rest, k =>
      if k' = k then (k', n + 1) :: rest else (k', n) :: bumpError rest k

/-- The per-row mutation of one LO's stat in the aggregation loop of
`Admin.tsx` (lines 211-221): bump `attempts`, bump `passCount` when
`row.pass_fail === 1`, add the marks, and record the error tag when
`row.pass_fail === 0 && row.error_class` (JS truthiness: the tag must be
non-null and non-empty). -/
def updateStat (row : AttemptRow) (s : LOStat) : LOStat :=
  { s with
    attempts := s.attempts + 1
    passCount := if row.pass_fail = 1 then s.passCount + 1 else s.passCount
    totalMarksAwarded := s.totalMarksAwarded + row.marks_awarded
    totalMarksPossible := s.totalMarksPossible + row.marks_possible
    errorCounts :=
      match row.error_class with
      | some k =>
          if row.pass_fail = 0 ∧ k ≠ "" then bumpError s.errorCounts k
          else s.errorCounts
      | none => s.errorCounts }

/-- Apply one `lo` of a row to the LO map (`loMap` of `Admin.tsx`, modelled
as a list in key-insertion order): update the existing entry in place, or
append a freshly initialised entry. -/
def applyLo (row : AttemptRow) : List LOStat → Int → List LOStat
  | [], lo => [updateStat row (freshStat lo)]
  | s :: rest, lo =>
      if s.loId = lo then updateStat row s :: rest
      else s :: applyLo row rest lo

/-- The inner `for (const lo of row.lo_ids || [])` loop of `Admin.tsx`. -/
def applyRow (m : List LOStat) (row : AttemptRow) : List LOStat :=
  row.lo_ids.foldl (fun acc lo => applyLo row acc lo) m

/-- The accumulator of the `useMemo` aggregation in `Admin.tsx`:
`loMap`, the `Set` of student ids (insertion order), and the running
totals. -/
structure Aggregate where
  loStats : List LOStat
  studentIds : List String
  totalAttempts : Nat
  passTotal : Nat
  lastTs : Nat
deriving Repr, DecidableEq

/-- `Set.add` on the student-id set: JS `Set` keeps first-insertion order
and ignores duplicates. -/
def insertStudent (ids : List String) (s : String) : List String :=
  if s ∈ ids then ids else ids ++ [s]

/-- One iteration of the `for (const row of data)` loop of `Admin.tsx`
(lines 192-222). -/
def stepRow (agg : Aggregate) (row : AttemptRow) : Aggregate :=
  { loStats := applyRow agg.loStats row
    studentIds :=
      if row.student_id ≠ "" ∧ row.student_id.trim ≠ "" then
        insertStudent agg.studentIds row.student_id.trim
      else agg.studentIds
    totalAttempts := agg.totalAttempts + 1
    passTotal := if row.pass_fail = 1 then agg.passTotal + 1 else agg.passTotal
    lastTs := if row.ts ≠ 0 ∧ agg.lastTs < row.ts then row.ts else agg.lastTs }

/-- The initial accumulator of the aggregation. -/
def initAgg : Aggregate :=
  { loStats := [], studentIds := [], totalAttempts := 0, passTotal := 0
    lastTs := 0 }

/-- The whole aggregation pass of `Admin.tsx` over the fetched rows. -/
def aggregate (rows : List AttemptRow) : Aggregate :=
  rows.foldl stepRow initAgg

/-- The pass rate used by the `sortedLoStats` comparator in `Admin.tsx`:
`a.attempts > 0 ? a.passCount / a.attempts : 1`, as an exact rational. -/
def passRate (s : LOStat) : ℚ :=
  if 0 < s.attempts then (s.passCount : ℚ) / (s.attempts : ℚ) else 1

/-- The comparator `passRateA - passRateB` of `Admin.tsx`, as the Boolean
order it sorts by. -/
def rateLE (a b : LOStat) : Bool :=
  decide (passRate a ≤ passRate b)

/-- `sortedLoStats` of `Admin.tsx`: the LO stats sorted ascending by pass
rate. -/
def sortedLoStats (rows : List AttemptRow) : List LOStat :=
  ((aggregate rows).loStats).mergeSort rateLE

/-- `loMap.get(l)` of `Admin.tsx`: the stat stored for LO `l`, if any
(first — and by construction only — entry with that `loId`). -/
def statFor (l : Int) (m : List LOStat) : Option LOStat :=
  m.find? (fun s => s.loId = l)

/-- The stat for LO `l`, defaulting to the zero-initialised stat when the
LO has not been seen yet. -/
def getStat (l : Int) (m : List LOStat) : LOStat :=
  (statFor l m).getD (freshStat l)

theorem rateLE_trans (a b c : LOStat) :
    rateLE a b → rateLE b c → rateLE a c := by
  simp only [rateLE, decide_eq_true_eq]
  exact le_trans

theorem rateLE_total (a b : LOStat) : rateLE a b || rateLE b a := by
  simp only [rateLE, Bool.or_eq_true, decide_eq_true_eq]
  exact le_total _ _

theorem pairwise_rateLE_sortedLoStats (rows : List AttemptRow) :
    (sortedLoStats rows).Pairwise (fun a b => rateLE a b = true) :=
  List.sorted_mergeSort rateLE_trans rateLE_total (aggregate rows).loStats

theorem pairwise_passRate_sortedLoStats (rows : List AttemptRow) :
    (sortedLoStats rows).Pairwise (fun a b => passRate a ≤ passRate b) := by
  refine List.Pairwise.imp ?_ (pairwise_rateLE_sortedLoStats rows)
  intro a b h
  exact of_decide_eq_true h

theorem sortedLoStats_perm (rows : List AttemptRow) :
    List.Perm (sortedLoStats rows) (aggregate rows).loStats :=
  List.mergeSort_perm (aggregate rows).loStats rateLE

/-- C1: the analytics ranking `sortedLoStats` is ordered non-decreasingly by
pass rate `passCount/attempts`, an LO with zero attempts is assigned pass
rate 1 (so it sorts last, not first), and the first element of the ranking
has minimal pass rate among all aggregated LO stats. -/
theorem sortedLoStats_sorted_by_passRate (rows : List AttemptRow) :
    (sortedLoStats rows).Pairwise (fun a b => passRate a ≤ passRate b) ∧
    (∀ s : LOStat, s.attempts = 0 → passRate s = 1) ∧
    (∀ hd, (sortedLoStats rows).head? = some hd →
      ∀ s ∈ (aggregate rows).loStats, passRate hd ≤ passRate s) := by
  refine ⟨pairwise_passRate_sortedLoStats rows, ?_, ?_⟩
  · intro s hs
    simp [passRate, hs]
  · intro hd hhd s hs
    have hmem : s ∈ sortedLoStats rows :=
      (sortedLoStats_perm rows).symm.subset hs
    have hpw := pairwise_passRate_sortedLoStats rows
    cases hsl : sortedLoStats rows with
    | nil => rw [hsl] at hhd; simp at hhd
    | cons x t =>
        rw [hsl] at hhd
        simp only [List.head?_cons, Option.some.injEq] at hhd
        subst hhd
        rw [hsl] at hmem hpw
        rcases List.mem_cons.mp hmem with h | h
        · exact le_of_eq (congrArg passRate h.symm)
        · exact (List.pairwise_cons.mp hpw).1 s h

/-- Witness for C1 at a concrete row list: the head of the ranking has
minimal pass rate, and a zero-attempt stat has pass rate 1. -/
theorem sortedLoStats_sorted_by_passRate_witness :
    passRate (⟨1, 1, 0, 0, 1, [("tag", 1)]⟩ : LOStat) ≤
      passRate (⟨1, 1, 0, 0, 1, [("tag", 1)]⟩ : LOStat) ∧
    passRate (freshStat 5) = 1 :=
  ⟨(sortedLoStats_sorted_by_passRate
      [⟨200, "", "sess", "mq1", "q2", [1], 0, 1, 0, some "tag", false, 0, 1⟩]).2.2
      ⟨1, 1, 0, 0, 1, [("tag", 1)]⟩
      (by
        have hagg : (aggregate
            [⟨200, "", "sess", "mq1", "q2", [1], 0, 1, 0, some "tag", false, 0, 1⟩]).loStats
            = [⟨1, 1, 0, 0, 1, [("tag", 1)]⟩] := by decide
        unfold sortedLoStats
        rw [hagg, List.mergeSort_singleton]
        rfl)
      ⟨1, 1, 0, 0, 1, [("tag", 1)]⟩ (by decide),
    (sortedLoStats_sorted_by_passRate []).2.1 (freshStat 5) rfl⟩

theorem updateStat_loId (row : AttemptRow) (s : LOStat) :
    (updateStat row s).loId = s.loId := rfl

theorem statFor_cons (l : Int) (s : LOStat) (rest : List LOStat) :
    statFor l (s :: rest) = if s.loId = l then some s else statFor l rest := by
  by_cases h : s.loId = l <;> simp [statFor, List.find?_cons, h]

theorem applyLo_cons (row : AttemptRow) (s : LOStat) (rest : List LOStat)
    (lo : Int) :
    applyLo row (s :: rest) lo
      = if s.loId = lo then updateStat row s :: rest
        else s :: applyLo row rest lo := rfl

theorem statFor_applyLo_self (row : AttemptRow) (m : List LOStat) (lo : Int) :
    statFor lo (applyLo row m lo) = some (updateStat row (getStat lo m)) := by
  induction m with
  | nil =>
      show statFor lo [updateStat row (freshStat lo)] = _
      rw [statFor_cons, updateStat_loId]
      simp [freshStat, getStat, statFor]
  | cons s rest ih =>
      by_cases h : s.loId = lo
      · rw [applyLo_cons, if_pos h, statFor_cons, updateStat_loId, if_pos h]
        have hg : getStat lo (s :: rest) = s := by
          simp [getStat, statFor_cons, h]
        rw [hg]
      · rw [applyLo_cons, if_neg h, statFor_cons, if_neg h, ih]
        have hg : getStat lo (s :: rest) = getStat lo rest := by
          simp [getStat, statFor_cons, h]
        rw [hg]

theorem statFor_applyLo_ne (row : AttemptRow) (m : List LOStat) (lo l : Int)
    (h : l ≠ lo) :
    statFor l (applyLo row m lo) = statFor l m := by
  induction m with
  | nil =>
      show statFor l [updateStat row (freshStat lo)] = statFor l []
      rw [statFor_cons, updateStat_loId]
      have hne : (freshStat lo).loId ≠ l := fun hc => h hc.symm
      rw [if_neg hne]
  | cons s rest ih =>
      by_cases hs : s.loId = lo
      · rw [applyLo_cons, if_pos hs, statFor_cons, statFor_cons, updateStat_loId]
        have hne : s.loId ≠ l := by rw [hs]; exact fun hc => h hc.symm
        rw [if_neg hne, if_neg hne]
      · rw [applyLo_cons, if_neg hs, statFor_cons, statFor_cons, ih]

theorem statFor_foldl_applyLo_not_mem (row : AttemptRow) (L : List Int)
    (m : List LOStat) (l : Int) (h : l ∉ L) :
    statFor l (L.foldl (fun acc lo => applyLo row acc lo) m) = statFor l m := by
  induction L generalizing m with
  | nil => rfl
  | cons lo L' ih =>
      have h1 : l ≠ lo := fun hc => h (hc ▸ List.mem_cons_self lo L')
      have h2 : l ∉ L' := fun hc => h (List.mem_cons_of_mem lo hc)
      simp only [List.foldl_cons]
      rw [ih (applyLo row m lo) h2, statFor_applyLo_ne row m lo l h1]

theorem statFor_foldl_applyLo_mem (row : AttemptRow) (L : List Int)
    (m : List LOStat) (l : Int) (hnd : L.Nodup) (h : l ∈ L) :
    statFor l (L.foldl (fun acc lo => applyLo row acc lo) m)
      = some (updateStat row (getStat l m)) := by
  induction L generalizing m with
  | nil => cases h
  | cons lo L' ih =>
      simp only [List.foldl_cons]
      rcases List.nodup_cons.mp hnd with ⟨hlo, hnd'⟩
      by_cases hll : l = lo
      · subst hll
        rw [statFor_foldl_applyLo_not_mem row L' (applyLo row m l) l hlo]
        exact statFor_applyLo_self row m l
      · have hl' : l ∈ L' := by
          rcases List.mem_cons.mp h with hc | hc
          · exact absurd hc hll
          · exact hc
        rw [ih (applyLo row m lo) hnd' hl']
        rw [getStat, statFor_applyLo_ne row m lo l hll]
        rfl

theorem aggregate_append_one (rows : List AttemptRow) (row : AttemptRow) :
    aggregate (rows ++ [row]) = stepRow (aggregate rows) row := by
  simp [aggregate, List.foldl_append]

theorem totalAttempts_foldl (rows : List AttemptRow) (agg : Aggregate) :
    (rows.foldl stepRow agg).totalAttempts = agg.totalAttempts + rows.length := by
  induction rows generalizing agg with
  | nil => rfl
  | cons r rest ih =>
      simp only [List.foldl_cons, ih (stepRow agg r), List.length_cons]
      simp [stepRow]
      omega

theorem totalAttempts_aggregate (rows : List AttemptRow) :
    (aggregate rows).totalAttempts = rows.length := by
  simpa [initAgg] using totalAttempts_foldl rows initAgg

/-- C2: the aggregation is a single pass in which each appended record
increments `totalAttempts` by exactly 1 (so `totalAttempts` equals the
number of records), and, for a record whose `lo_ids` are duplicate-free
(the data model declares `loIds` a set), increments the stats of exactly
the LOs listed in its `lo_ids`: `attempts` by 1, `passCount` iff
`pass_fail = 1`, and the mark totals by the record's marks; every other
LO's stat is untouched. -/
theorem aggregate_step_per_record (rows : List AttemptRow) (row : AttemptRow)
    (hnd : row.lo_ids.Nodup) :
    (aggregate (rows ++ [row])).totalAttempts
        = (aggregate rows).totalAttempts + 1 ∧
    (aggregate rows).totalAttempts = rows.length ∧
    (∀ l, l ∈ row.lo_ids →
      (getStat l (aggregate (rows ++ [row])).loStats).attempts
          = (getStat l (aggregate rows).loStats).attempts + 1 ∧
      (getStat l (aggregate (rows ++ [row])).loStats).passCount
          = (getStat l (aggregate rows).loStats).passCount
              + (if row.pass_fail = 1 then 1 else 0) ∧
      (getStat l (aggregate (rows ++ [row])).loStats).totalMarksAwarded
          = (getStat l (aggregate rows).loStats).totalMarksAwarded
              + row.marks_awarded ∧
      (getStat l (aggregate (rows ++ [row])).loStats).totalMarksPossible
          = (getStat l (aggregate rows).loStats).totalMarksPossible
              + row.marks_possible) ∧
    (∀ l, l ∉ row.lo_ids →
      statFor l (aggregate (rows ++ [row])).loStats
        = statFor l (aggregate rows).loStats) := by
  refine ⟨?_, totalAttempts_aggregate rows, ?_, ?_⟩
  · rw [aggregate_append_one]; rfl
  · intro l hl
    have hs : statFor l (aggregate (rows ++ [row])).loStats
        = some (updateStat row (getStat l (aggregate rows).loStats)) := by
      rw [aggregate_append_one]
      exact statFor_foldl_applyLo_mem row row.lo_ids
        (aggregate rows).loStats l hnd hl
    have hg : getStat l (aggregate (rows ++ [row])).loStats
        = updateStat row (getStat l (aggregate rows).loStats) := by
      rw [getStat, hs]; rfl
    rw [hg]
    refine ⟨rfl, ?_, rfl, rfl⟩
    by_cases hp : row.pass_fail = 1 <;> simp [updateStat, hp]
  · intro l hl
    rw [aggregate_append_one]
    exact statFor_foldl_applyLo_not_mem row row.lo_ids
      (aggregate rows).loStats l hl

/-- Witness for C2 at a concrete record: appending one passed record with
`lo_ids = [1, 2]` bumps `totalAttempts` and the stats of LO 1, and leaves
LO 7 untouched. -/
theorem aggregate_step_per_record_witness :
    (aggregate ([] ++ [⟨9, "s", "x", "mq1", "q1", [1, 2], 1, 1, 5, none,
        false, 2, 2⟩])).totalAttempts = (aggregate []).totalAttempts + 1 ∧
    (getStat 1 (aggregate ([] ++ [⟨9, "s", "x", "mq1", "q1", [1, 2], 1, 1, 5,
        none, false, 2, 2⟩])).loStats).attempts
      = (getStat 1 (aggregate []).loStats).attempts + 1 ∧
    statFor 7 (aggregate ([] ++ [⟨9, "s", "x", "mq1", "q1", [1, 2], 1, 1, 5,
        none, false, 2, 2⟩])).loStats = statFor 7 (aggregate []).loStats :=
  ⟨(aggregate_step_per_record []
      ⟨9, "s", "x", "mq1", "q1", [1, 2], 1, 1, 5, none, false, 2, 2⟩
      (by decide)).1,
   ((aggregate_step_per_record []
      ⟨9, "s", "x", "mq1", "q1", [1, 2], 1, 1, 5, none, false, 2, 2⟩
      (by decide)).2.2.1 1 (by decide)).1,
   (aggregate_step_per_record []
      ⟨9, "s", "x", "mq1", "q1", [1, 2], 1, 1, 5, none, false, 2, 2⟩
      (by decide)).2.2.2 7 (by decide)⟩

/-- `stat.errorCounts[t] || 0`: the count recorded for tag `t`. -/
def lookupCount (t : String) (ec : List (String × Nat)) : Nat :=
  match ec.find? (fun p => p.1 = t) with
  | some p => p.2
  | none => 0

/-- The claim's counting predicate for one analytics row: the record lists
LO `l`, is failed, and carries error tag `t`. -/
def errPred (l : Int) (t : String) (r : AttemptRow) : Bool :=
  decide (l ∈ r.lo_ids) && decide (r.pass_fail = 0)
    && decide (r.error_class = some t)

theorem lookupCount_cons (t k : String) (n : Nat) (rest : List (String × Nat)) :
    lookupCount t ((k, n) :: rest) = if k = t then n else lookupCount t rest := by
  by_cases h : k = t <;> simp [lookupCount, List.find?_cons, h]

theorem bumpError_lookupCount (ec : List (String × Nat)) (k t : String) :
    lookupCount t (bumpError ec k)
      = lookupCount t ec + (if k = t then 1 else 0) := by
  induction ec with
  | nil => by_cases h : k = t <;> simp [bumpError, lookupCount_cons, lookupCount, h]
  | cons p rest ih =>
      obtain ⟨k', n⟩ := p
      by_cases hk : k' = k
      · subst hk
        by_cases h : k' = t <;> simp [bumpError, lookupCount_cons, h]
      · by_cases h : k' = t
        · subst h
          have hkt : ¬k = k' := fun hc => hk hc.symm
          simp [bumpError, hk, lookupCount_cons, hkt]
        · simp [bumpError, hk, lookupCount_cons, h, ih]

theorem lookupCount_step (agg : Aggregate) (row : AttemptRow) (l : Int)
    (t : String) (ht : t ≠ "") (hnd : row.lo_ids.Nodup) :
    lookupCount t (getStat l (stepRow agg row).loStats).errorCounts
      = lookupCount t (getStat l agg.loStats).errorCounts
          + (if errPred l t row then 1 else 0) := by
  by_cases hl : l ∈ row.lo_ids
  · have hs : statFor l (stepRow agg row).loStats
        = some (updateStat row (getStat l agg.loStats)) :=
      statFor_foldl_applyLo_mem row row.lo_ids agg.loStats l hnd hl
    have hg : getStat l (stepRow agg row).loStats
        = updateStat row (getStat l agg.loStats) := by
      rw [getStat, hs]; rfl
    rw [hg]
    cases hec : row.error_class with
    | none => simp [updateStat, hec, errPred]
    | some k =>
        by_cases hp : row.pass_fail = 0
        · by_cases hk : k = ""
          · subst hk
            have hkt : ¬((some "" : Option String) = some t) := by
              simpa using fun hc => ht hc.symm
            simp [updateStat, hec, hp, errPred, hkt]
          · rw [updateStat]
            simp only [hec, hp, hk, ne_eq, not_false_iff, and_self, if_pos,
              true_and]
            rw [bumpError_lookupCount]
            simp [errPred, hl, hp, hec]
        · simp [updateStat, hec, hp, errPred]
  · have hs : statFor l (stepRow agg row).loStats = statFor l agg.loStats :=
      statFor_foldl_applyLo_not_mem row row.lo_ids agg.loStats l hl
    have hg : getStat l (stepRow agg row).loStats = getStat l agg.loStats := by
      rw [getStat, hs]; rfl
    simp [hg, errPred, hl]

theorem lookupCount_foldl (rows : List AttemptRow) (agg : Aggregate) (l : Int)
    (t : String) (ht : t ≠ "") (hnd : ∀ r ∈ rows, r.lo_ids.Nodup) :
    lookupCount t (getStat l (rows.foldl stepRow agg).loStats).errorCounts
      = lookupCount t (getStat l agg.loStats).errorCounts
          + rows.countP (errPred l t) := by
  induction rows generalizing agg with
  | nil => simp
  | cons r rest ih =>
      have hr : r.lo_ids.Nodup := hnd r (List.mem_cons_self r rest)
      have hrest : ∀ x ∈ rest, x.lo_ids.Nodup :=
        fun x hx => hnd x (List.mem_cons_of_mem r hx)
      simp only [List.foldl_cons, List.countP_cons]
      rw [ih (stepRow agg r) hrest, lookupCount_step agg r l t ht hr]
      omega

/-- C3 (amended): for a non-empty error tag `t` and records whose `lo_ids`
are duplicate-free, the aggregated `errorCounts[t]` for LO `l` equals the
number of records listing `l` that are failed (`pass_fail = 0`) and carry
`error_class = t`; a record contributes only when it is failed and its
`errorClass` is non-null *and non-empty* (JS truthiness). -/
theorem errorCounts_counts_failed_records (rows : List AttemptRow) (l : Int)
    (t : String) (ht : t ≠ "") (hnd : ∀ r ∈ rows, r.lo_ids.Nodup) :
    lookupCount t (getStat l (aggregate rows).loStats).errorCounts
      = rows.countP (errPred l t) := by
  have h := lookupCount_foldl rows initAgg l t ht hnd
  simpa [aggregate, initAgg, getStat, statFor, lookupCount, freshStat] using h

/-- Counterexample to C3 as stated: a failed record whose `error_class` is
the empty string (non-null) is NOT counted by the code — the truthiness
check `row.error_class` rejects `""` — while the claim counts it. -/
theorem errorCounts_empty_tag_counterexample :
    lookupCount ""
      (getStat 1 (aggregate
        [⟨1, "", "x", "m", "q", [1], 0, 1, 0, some "", false, 0, 1⟩]).loStats).errorCounts
      = 0 ∧
    List.countP (errPred 1 "")
      [⟨1, "", "x", "m", "q", [1], 0, 1, 0, some "", false, 0, 1⟩] = 1 := by
  constructor <;> decide

/-- Witness for C3 (amended) at a concrete record list. -/
theorem errorCounts_counts_failed_records_witness :
    lookupCount "off-by-one"
      (getStat 1 (aggregate
        [⟨1, "", "x", "m", "q", [1], 0, 1, 0, some "off-by-one", false, 0, 1⟩,
         ⟨2, "", "x", "m", "q", [1], 1, 1, 0, none, false, 1, 1⟩]).loStats).errorCounts
      = List.countP (errPred 1 "off-by-one")
        [⟨1, "", "x", "m", "q", [1], 0, 1, 0, some "off-by-one", false, 0, 1⟩,
         ⟨2, "", "x", "m", "q", [1], 1, 1, 0, none, false, 1, 1⟩] :=
  errorCounts_counts_failed_records
    [⟨1, "", "x", "m", "q", [1], 0, 1, 0, some "off-by-one", false, 0, 1⟩,
     ⟨2, "", "x", "m", "q", [1], 1, 1, 0, none, false, 1, 1⟩] 1 "off-by-one"
    (by decide) (by decide)

/-- The structural invariant every aggregated stat satisfies: at most as
many passes as attempts, and every recorded error tag has a positive
count. -/
def statOK (s : LOStat) : Prop :=
  s.passCount ≤ s.attempts ∧ ∀ p ∈ s.errorCounts, 1 ≤ p.2

theorem bumpError_pos (ec : List (String × Nat)) (k : String)
    (h : ∀ p ∈ ec, 1 ≤ p.2) : ∀ p ∈ bumpError ec k, 1 ≤ p.2 := by
  induction ec with
  | nil =>
      intro p hp
      simp only [bumpError, List.mem_singleton] at hp
      simp [hp]
  | cons q rest ih =>
      obtain ⟨k', n⟩ := q
      by_cases hk : k' = k
      · intro p hp
        simp only [bumpError, if_pos hk] at hp
        rcases List.mem_cons.mp hp with hc | hc
        · simp [hc]
        · exact h p (List.mem_cons_of_mem _ hc)
      · intro p hp
        simp only [bumpError, if_neg hk] at hp
        rcases List.mem_cons.mp hp with hc | hc
        · exact hc ▸ h (k', n) (List.mem_cons_self _ _)
        · exact ih (fun q hq => h q (List.mem_cons_of_mem _ hq)) p hc

theorem statOK_freshStat (lo : Int) : statOK (freshStat lo) := by
  constructor
  · exact le_refl 0
  · intro p hp; simp [freshStat] at hp

theorem statOK_updateStat (row : AttemptRow) (s : LOStat) (h : statOK s) :
    statOK (updateStat row s) := by
  obtain ⟨h1, h2⟩ := h
  constructor
  · by_cases hp : row.pass_fail = 1 <;> simp [updateStat, hp] <;> omega
  · show ∀ p ∈ (updateStat row s).errorCounts, 1 ≤ p.2
    rw [updateStat]
    cases row.error_class with
    | none => exact h2
    | some k =>
        by_cases hg : row.pass_fail = 0 ∧ k ≠ ""
        · simpa [hg] using bumpError_pos s.errorCounts k h2
        · simpa [hg] using h2

theorem statOK_applyLo (row : AttemptRow) (m : List LOStat) (lo : Int)
    (h : ∀ s ∈ m, statOK s) : ∀ s ∈ applyLo row m lo, statOK s := by
  induction m with
  | nil =>
      intro s hs
      simp only [applyLo, List.mem_singleton] at hs
      exact hs ▸ statOK_updateStat row (freshStat lo) (statOK_freshStat lo)
  | cons q rest ih =>
      intro s hs
      by_cases hq : q.loId = lo
      · rw [applyLo_cons, if_pos hq] at hs
        rcases List.mem_cons.mp hs with hc | hc
        · exact hc ▸ statOK_updateStat row q (h q (List.mem_cons_self _ _))
        · exact h s (List.mem_cons_of_mem _ hc)
      · rw [applyLo_cons, if_neg hq] at hs
        rcases List.mem_cons.mp hs with hc | hc
        · exact hc ▸ h q (List.mem_cons_self _ _)
        · exact ih (fun x hx => h x (List.mem_cons_of_mem _ hx)) s hc

theorem statOK_foldl_applyLo (row : AttemptRow) (L : List Int)
    (m : List LOStat) (h : ∀ s ∈ m, statOK s) :
    ∀ s ∈ L.foldl (fun acc lo => applyLo row acc lo) m, statOK s := by
  induction L generalizing m with
  | nil => exact h
  | cons lo L' ih =>
      intro s hs
      exact ih (applyLo row m lo) (statOK_applyLo row m lo h) s hs

theorem statOK_foldl_stepRow (rows : List AttemptRow) (agg : Aggregate)
    (h : ∀ s ∈ agg.loStats, statOK s) :
    ∀ s ∈ (rows.foldl stepRow agg).loStats, statOK s := by
  induction rows generalizing agg with
  | nil => exact h
  | cons r rest ih =>
      intro s hs
      refine ih (stepRow agg r) ?_ s hs
      exact statOK_foldl_applyLo r r.lo_ids agg.loStats h

theorem statOK_aggregate (rows : List AttemptRow) :
    ∀ s ∈ (aggregate rows).loStats, statOK s := by
  refine statOK_foldl_stepRow rows initAgg ?_
  intro s hs
  simp [initAgg] at hs

/-- C4: every aggregated LO stat has `passCount ≤ attempts`, and its pass
rate (1 when `attempts = 0`) lies in `[0, 1]`. -/
theorem lostat_bounds (rows : List AttemptRow) (s : LOStat)
    (hs : s ∈ (aggregate rows).loStats) :
    s.passCount ≤ s.attempts ∧ 0 ≤ passRate s ∧ passRate s ≤ 1 := by
  have h1 : s.passCount ≤ s.attempts := (statOK_aggregate rows s hs).1
  refine ⟨h1, ?_, ?_⟩
  · rw [passRate]
    split
    · positivity
    · norm_num
  · rw [passRate]
    split
    · rename_i ha
      rw [div_le_one (by exact_mod_cast ha)]
      exact_mod_cast h1
    · exact le_refl 1

/-- Witness for C4 at a concrete record list. -/
theorem lostat_bounds_witness :
    (⟨3, 2, 1, 1, 2, [("t", 1)]⟩ : LOStat).passCount
        ≤ (⟨3, 2, 1, 1, 2, [("t", 1)]⟩ : LOStat).attempts ∧
    0 ≤ passRate ⟨3, 2, 1, 1, 2, [("t", 1)]⟩ ∧
    passRate ⟨3, 2, 1, 1, 2, [("t", 1)]⟩ ≤ 1 :=
  lostat_bounds
    [⟨1, "", "x", "m", "q", [3], 1, 1, 0, none, false, 1, 1⟩,
     ⟨2, "", "x", "m", "q", [3], 0, 1, 0, some "t", false, 0, 1⟩]
    ⟨3, 2, 1, 1, 2, [("t", 1)]⟩ (by decide)

/-- The `topError`/`topErrorCount` loop of `Admin.tsx` (lines 366-375):
fold over the entries of `errorCounts`, replacing the current best only
when a count is strictly greater; starts from `("—", 0)`. -/
def topErrorFold (ec : List (String × Nat)) : String × Nat :=
  ec.foldl (fun acc p => if acc.2 < p.2 then p else acc) ("—", 0)

/-- The dominant error tag displayed per LO. -/
def topError (ec : List (String × Nat)) : String :=
  (topErrorFold ec).1

theorem topFold_spec (ec : List (String × Nat)) (acc : String × Nat) :
    (ec.foldl (fun a p => if a.2 < p.2 then p else a) acc = acc ∧
      ∀ p ∈ ec, p.2 ≤ acc.2) ∨
    (∃ pre post,
      ec = pre ++ (ec.foldl (fun a p => if a.2 < p.2 then p else a) acc) :: post ∧
      acc.2 < (ec.foldl (fun a p => if a.2 < p.2 then p else a) acc).2 ∧
      (∀ p ∈ pre, p.2 < (ec.foldl (fun a p => if a.2 < p.2 then p else a) acc).2) ∧
      (∀ p ∈ ec, p.2 ≤ (ec.foldl (fun a p => if a.2 < p.2 then p else a) acc).2)) := by
  induction ec generalizing acc with
  | nil => exact Or.inl ⟨rfl, by simp⟩
  | cons q rest ih =>
      by_cases hq : acc.2 < q.2
      · have hstep : (q :: rest).foldl (fun a p => if a.2 < p.2 then p else a) acc
            = rest.foldl (fun a p => if a.2 < p.2 then p else a) q := by
          simp [List.foldl_cons, hq]
        rcases ih q with ⟨he, hall⟩ | ⟨pre, post, heq, hlt, hpre, hall⟩
        · refine Or.inr ⟨[], rest, ?_, ?_, ?_, ?_⟩
          · rw [hstep, he]; rfl
          · rw [hstep, he]; exact hq
          · intro p hp; cases hp
          · intro p hp
            rw [hstep, he]
            rcases List.mem_cons.mp hp with hc | hc
            · exact le_of_eq (congrArg Prod.snd hc)
            · exact hall p hc
        · refine Or.inr ⟨q :: pre, post, ?_, ?_, ?_, ?_⟩
          · rw [hstep]
            exact congrArg (List.cons q) heq
          · rw [hstep]
            exact lt_trans hq hlt
          · intro p hp
            rw [hstep]
            rcases List.mem_cons.mp hp with hc | hc
            · exact (congrArg Prod.snd hc) ▸ hlt
            · exact hpre p hc
          · intro p hp
            rw [hstep]
            rcases List.mem_cons.mp hp with hc | hc
            · exact (congrArg Prod.snd hc) ▸ le_of_lt hlt
            · exact hall p hc
      · have hstep : (q :: rest).foldl (fun a p => if a.2 < p.2 then p else a) acc
            = rest.foldl (fun a p => if a.2 < p.2 then p else a) acc := by
          simp [List.foldl_cons, hq]
        rcases ih acc with ⟨he, hall⟩ | ⟨pre, post, heq, hlt, hpre, hall⟩
        · refine Or.inl ⟨?_, ?_⟩
          · rw [hstep, he]
          · intro p hp
            rcases List.mem_cons.mp hp with hc | hc
            · exact (congrArg Prod.snd hc) ▸ Nat.le_of_not_lt hq
            · exact hall p hc
        · refine Or.inr ⟨q :: pre, post, ?_, ?_, ?_, ?_⟩
          · rw [hstep]
            exact congrArg (List.cons q) heq
          · rw [hstep]; exact hlt
          · intro p hp
            rw [hstep]
            rcases List.mem_cons.mp hp with hc | hc
            · exact (congrArg Prod.snd hc) ▸
                lt_of_le_of_lt (Nat.le_of_not_lt hq) hlt
            · exact hpre p hc
          · intro p hp
            rw [hstep]
            rcases List.mem_cons.mp hp with hc | hc
            · exact (congrArg Prod.snd hc) ▸
                le_of_lt (lt_of_le_of_lt (Nat.le_of_not_lt hq) hlt)
            · exact hall p hc

/-- C5: for every aggregated LO stat, the displayed dominant error tag is
"—" when `errorCounts` is empty, and otherwise it is the argmax of
`errorCounts` with ties broken in favour of the first-seen tag: the fold's
result is an entry of `errorCounts`, every entry strictly before it has a
strictly smaller count, and no entry has a larger count. -/
theorem topError_spec (rows : List AttemptRow) (s : LOStat)
    (hs : s ∈ (aggregate rows).loStats) :
    (s.errorCounts = [] → topError s.errorCounts = "—") ∧
    (s.errorCounts ≠ [] → ∃ pre post,
      s.errorCounts = pre ++ topErrorFold s.errorCounts :: post ∧
      topError s.errorCounts = (topErrorFold s.errorCounts).1 ∧
      (∀ p ∈ pre, p.2 < (topErrorFold s.errorCounts).2) ∧
      (∀ p ∈ s.errorCounts, p.2 ≤ (topErrorFold s.errorCounts).2)) := by
  constructor
  · intro he; rw [he]; rfl
  · intro hne
    rcases topFold_spec s.errorCounts ("—", 0) with ⟨he, hall⟩ | h
    · exfalso
      cases hec : s.errorCounts with
      | nil => exact hne hec
      | cons p rest =>
          have hp : p ∈ s.errorCounts := hec ▸ List.mem_cons_self p rest
          have h1 : 1 ≤ p.2 := (statOK_aggregate rows s hs).2 p hp
          have h0 : p.2 ≤ 0 := hall p hp
          omega
    · obtain ⟨pre, post, heq, _, hpre, hall⟩ := h
      exact ⟨pre, post, heq, rfl, hpre, hall⟩

/-- Witness for C5 at concrete record lists: an LO with no errored
attempts displays "—", and an LO with tags a:2, b:1 has first-seen argmax
("a", 2). -/
theorem topError_spec_witness :
    topError (⟨1, 1, 1, 1, 1, []⟩ : LOStat).errorCounts = "—" ∧
    (∃ pre post,
      (⟨2, 3, 0, 0, 3, [("a", 2), ("b", 1)]⟩ : LOStat).errorCounts
        = pre ++ topErrorFold
            (⟨2, 3, 0, 0, 3, [("a", 2), ("b", 1)]⟩ : LOStat).errorCounts :: post ∧
      topError (⟨2, 3, 0, 0, 3, [("a", 2), ("b", 1)]⟩ : LOStat).errorCounts
        = (topErrorFold
            (⟨2, 3, 0, 0, 3, [("a", 2), ("b", 1)]⟩ : LOStat).errorCounts).1 ∧
      (∀ p ∈ pre, p.2 < (topErrorFold
            (⟨2, 3, 0, 0, 3, [("a", 2), ("b", 1)]⟩ : LOStat).errorCounts).2) ∧
      (∀ p ∈ (⟨2, 3, 0, 0, 3, [("a", 2), ("b", 1)]⟩ : LOStat).errorCounts,
        p.2 ≤ (topErrorFold
            (⟨2, 3, 0, 0, 3, [("a", 2), ("b", 1)]⟩ : LOStat).errorCounts).2)) :=
  ⟨(topError_spec
      [⟨1, "", "x", "m", "q", [1], 1, 1, 0, none, false, 1, 1⟩]
      ⟨1, 1, 1, 1, 1, []⟩ (by decide)).1 rfl,
   (topError_spec
      [⟨1, "", "x", "m", "q", [2], 0, 1, 0, some "a", false, 0, 1⟩,
       ⟨2, "", "x", "m", "q", [2], 0, 1, 0, some "a", false, 0, 1⟩,
       ⟨3, "", "x", "m", "q", [2], 0, 1, 0, some "b", false, 0, 1⟩]
      ⟨2, 3, 0, 0, 3, [("a", 2), ("b", 1)]⟩ (by decide)).2 (by decide)⟩

/-! Quiz client, embedded from `src/pages/Quiz/MicroQuizRunner.tsx`. -/

/-- `parsed[mqId]`: reading one key of the JSON object stored under
`fm-mq-attempts` (string-keyed JS object, modelled as an association
list). -/
def lsGet (store : List (String × Nat)) (k : String) : Option Nat :=
  (store.find? (fun p => p.1 = k)).map Prod.snd

/-- `parsed[mqId] = next` followed by `setItem`: update the stored object
in place, appending the key on first use. -/
def lsSet : List (String × Nat) → String → Nat → List (String × Nat)
  | [], k, v => [(k, v)]
  | (k', v') :: rest, k, v =>
      if k' = k then (k, v) :: rest else (k', v') :: lsSet rest k v

/-- `nextAttemptNumber` of `MicroQuizRunner.tsx` (lines 75-86).  The
browser storage is the explicit state; `fail` models an exception from
`localStorage` access or `JSON.parse`/`JSON.stringify` (the `catch`
branch returns 1 and the storage is left unchanged). -/
def nextAttemptNumber (fail : Bool) (store : List (String × Nat))
    (mqId : String) : Nat × List (String × Nat) :=
  if fail then (1, store)
  else
    let nxt := (lsGet store mqId).getD 0 + 1
    (nxt, lsSet store mqId nxt)

theorem lsGet_lsSet_self (store : List (String × Nat)) (k : String) (v : Nat) :
    lsGet (lsSet store k v) k = some v := by
  induction store with
  | nil => simp [lsSet, lsGet, List.find?_cons]
  | cons p rest ih =>
      obtain ⟨k', v'⟩ := p
      by_cases h : k' = k
      · simp [lsSet, h, lsGet, List.find?_cons]
      · have hne : ¬k' = k := h
        simpa [lsSet, hne, lsGet, List.find?_cons] using ih

theorem lsGet_lsSet_ne (store : List (String × Nat)) (k k' : String)
    (v : Nat) (h : k ≠ k') :
    lsGet (lsSet store k' v) k = lsGet store k := by
  induction store with
  | nil =>
      have : ¬k' = k := fun hc => h hc.symm
      simp [lsSet, lsGet, List.find?_cons, this]
  | cons p rest ih =>
      obtain ⟨k₀, v₀⟩ := p
      by_cases h0 : k₀ = k'
      · have hk : ¬k' = k := fun hc => h hc.symm
        simp [lsSet, h0, lsGet, List.find?_cons, hk]
      · by_cases h1 : k₀ = k
        · simp [lsSet, h0, lsGet, List.find?_cons, h1, h]
        · simpa [lsSet, h0, lsGet, List.find?_cons, h1] using ih

/-- C9: `nextAttemptNumber(mqId)` returns 1 when no counter is stored for
`mqId`; a successful call followed by another successful call for the same
`mqId` returns exactly one more; a call for a different quiz id leaves this
quiz's counter untouched (independent counters per `mqId`); and when the
storage access fails it returns 1 and changes nothing. -/
theorem nextAttemptNumber_spec (store st2 : List (String × Nat))
    (mqId other : String) (n : Nat) :
    (lsGet store mqId = none → (nextAttemptNumber false store mqId).1 = 1) ∧
    (nextAttemptNumber false store mqId = (n, st2) →
      (nextAttemptNumber false st2 mqId).1 = n + 1) ∧
    (other ≠ mqId →
      lsGet (nextAttemptNumber false store other).2 mqId = lsGet store mqId) ∧
    nextAttemptNumber true store mqId = (1, store) := by
  refine ⟨?_, ?_, ?_, rfl⟩
  · intro h
    simp [nextAttemptNumber, h]
  · intro h
    simp only [nextAttemptNumber, if_neg Bool.false_ne_true] at h
    obtain ⟨hn, hst⟩ := Prod.mk.injEq .. ▸ h
    simp only [nextAttemptNumber, if_neg Bool.false_ne_true]
    rw [← hst, lsGet_lsSet_self]
    simp [← hn]
  · intro h
    simp only [nextAttemptNumber, if_neg Bool.false_ne_true]
    exact lsGet_lsSet_ne store mqId other _ (fun hc => h hc.symm)

/-- Witness for C9: first call on an empty store returns 1, the next call
returns 2, and a failing call returns 1 leaving the store unchanged. -/
theorem nextAttemptNumber_spec_witness :
    (nextAttemptNumber false [] "mq1").1 = 1 ∧
    (nextAttemptNumber false [("mq1", 1)] "mq1").1 = 1 + 1 ∧
    lsGet (nextAttemptNumber false [("mq1", 1)] "mq2").2 "mq1"
      = lsGet [("mq1", 1)] "mq1" ∧
    nextAttemptNumber true [("mq1", 1)] "mq1" = (1, [("mq1", 1)]) :=
  ⟨(nextAttemptNumber_spec [] [] "mq1" "x" 0).1 rfl,
   (nextAttemptNumber_spec [] [("mq1", 1)] "mq1" "x" 1).2.1 rfl,
   (nextAttemptNumber_spec [("mq1", 1)] [] "mq1" "mq2" 0).2.2.1 (by decide),
   (nextAttemptNumber_spec [("mq1", 1)] [] "mq1" "x" 0).2.2.2⟩

/-- The item types of the micro-quiz client (`ItemType` in
`MicroQuizRunner.tsx`). -/
inductive ItemType
  | mcq_single
  | mcq_multi
  | fitb
  | short_text
  | code_text
  | uml_json
deriving Repr, DecidableEq

/-- A quiz item as fetched by the client (`Item` in
`MicroQuizRunner.tsx`); an option is a `{key, text}` pair. -/
structure Item where
  id : String
  type : ItemType
  prompt : String
  options : Option (List (String × String))
  marks : Nat
deriving Repr, DecidableEq

/-- A client-side answer value: a string (radio / text inputs) or an array
of option keys (multi-select checkboxes). -/
inductive AnswerVal
  | str (s : String)
  | arr (l : List String)
deriving Repr, DecidableEq

/-- One element of the `attempts` array in the `POST /quiz/submit` payload
built by `handleSubmit` (`time_ms` is hard-coded to 0). -/
structure SubmitEntry where
  item_id : String
  response : Option AnswerVal
  time_ms : Nat
deriving Repr, DecidableEq

/-- `answers[item.id]`: the `answers` record is a string-keyed JS object;
`none` models `undefined`. -/
def lookupAnswer (answers : List (String × AnswerVal)) (itemId : String) :
    Option AnswerVal :=
  (answers.find? (fun p => p.1 = itemId)).map Prod.snd

/-- The `response` field of one payload entry:
`answers[item.id] !== undefined && answers[item.id] !== "" ? answers[item.id] : null`.
A JS array is never `=== ""`, so only the string answers compare. -/
def responseFor (answers : List (String × AnswerVal)) (itemId : String) :
    Option AnswerVal :=
  match lookupAnswer answers itemId with
  | none => none
  | some a => if a = AnswerVal.str "" then none else some a

/-- `mq.items.map((item) => ({item_id, response, time_ms: 0}))` of
`handleSubmit` (lines 158-165). -/
def submitAttempts (items : List Item)
    (answers : List (String × AnswerVal)) : List SubmitEntry :=
  items.map (fun it => ⟨it.id, responseFor answers it.id, 0⟩)

/-- C10: the submission payload has exactly one entry per quiz item, in the
quiz's item order, each carrying that item's id; an entry's response is
`null` exactly when the stored answer is `undefined` or the empty string,
and otherwise it is the stored answer unchanged (in particular an empty
text answer never reaches the grader as the empty string). -/
theorem submit_payload_spec (items : List Item)
    (answers : List (String × AnswerVal)) :
    (submitAttempts items answers).length = items.length ∧
    (submitAttempts items answers).map SubmitEntry.item_id
      = items.map Item.id ∧
    ∀ e ∈ submitAttempts items answers,
      (e.response = none ↔
        (lookupAnswer answers e.item_id = none ∨
         lookupAnswer answers e.item_id = some (AnswerVal.str ""))) ∧
      (∀ a, e.response = some a →
        lookupAnswer answers e.item_id = some a ∧ a ≠ AnswerVal.str "") ∧
      e.time_ms = 0 := by
  refine ⟨by simp [submitAttempts], by simp [submitAttempts], ?_⟩
  intro e he
  obtain ⟨it, hit, heq⟩ := List.mem_map.mp he
  subst heq
  refine ⟨?_, ?_, rfl⟩
  · show responseFor answers it.id = none ↔ _
    rw [responseFor]
    cases hl : lookupAnswer answers it.id with
    | none => simp
    | some a =>
        by_cases ha : a = AnswerVal.str ""
        · simp [ha]
        · simp [ha]
  · intro a ha
    show lookupAnswer answers it.id = some a ∧ a ≠ AnswerVal.str ""
    revert ha
    show responseFor answers it.id = some a → _
    rw [responseFor]
    cases hl : lookupAnswer answers it.id with
    | none => intro hc; cases hc
    | some b =>
        by_cases hb : b = AnswerVal.str ""
        · intro hc; simp [hb] at hc
        · intro hc
          simp only [if_neg hb, Option.some.injEq] at hc
          subst hc
          exact ⟨rfl, hb⟩

/-- Witness for C10: a two-item quiz where the first answer is the empty
string (submitted as null) and the second is a multi-select answer. -/
theorem submit_payload_spec_witness :
    (submitAttempts
        [⟨"q1", ItemType.fitb, "p", none, 1⟩,
         ⟨"q2", ItemType.mcq_multi, "p", some [("A", "a")], 1⟩]
        [("q1", AnswerVal.str ""), ("q2", AnswerVal.arr ["A"])]).map
      SubmitEntry.item_id
      = List.map Item.id
          [⟨"q1", ItemType.fitb, "p", none, 1⟩,
           ⟨"q2", ItemType.mcq_multi, "p", some [("A", "a")], 1⟩] ∧
    (⟨"q1", responseFor [("q1", AnswerVal.str ""), ("q2", AnswerVal.arr ["A"])] "q1", 0⟩
        : SubmitEntry).response = none :=
  by
  refine ⟨(submit_payload_spec
      [⟨"q1", ItemType.fitb, "p", none, 1⟩,
       ⟨"q2", ItemType.mcq_multi, "p", some [("A", "a")], 1⟩]
      [("q1", AnswerVal.str ""), ("q2", AnswerVal.arr ["A"])]).2.1, ?_⟩
  have h := (submit_payload_spec
      [⟨"q1", ItemType.fitb, "p", none, 1⟩,
       ⟨"q2", ItemType.mcq_multi, "p", some [("A", "a")], 1⟩]
      [("q1", AnswerVal.str ""), ("q2", AnswerVal.arr ["A"])]).2.2
      ⟨"q1", responseFor [("q1", AnswerVal.str ""), ("q2", AnswerVal.arr ["A"])] "q1", 0⟩
      (by decide)
  exact h.1.mpr (Or.inr (by decide))

/-! Shuffle Engine.  Its implementation is not part of the repository
excerpt; it is modelled from the specification (§4.1). -/

/-- Modelled from the spec: one step of the seeded pseudo-random generator
("a linear-congruential or splitmix-style generator", §4.1), as a 64-bit
LCG. -/
def lcgNext (s : Nat) : Nat :=
  (6364136223846793005 * s + 1442695040888963407) % (2 ^ 64)

/-- Modelled from the spec: "a stable hash of the seed material" (§4.1),
as a 64-bit polynomial string hash. -/
def strHash (str : String) : Nat :=
  str.foldl (fun h c => (h * 31 + c.toNat) % (2 ^ 64)) 5381

/-- Modelled from the spec: the generator is keyed by a stable hash of
`(mqId, itemId, seed)` (§4.1). -/
def seedMaterial (mqId itemId : String) (seed : Int) : Nat :=
  (strHash (mqId ++ "|" ++ itemId) + seed.natAbs) % (2 ^ 64)

/-- Modelled from the spec: a Fisher-Yates-style seeded shuffle — at each
step the generator advances and selects the element to emit next.  The
first argument is fuel, instantiated with the list length. -/
def seededGo : Nat → Nat → List α → List α
  | 0, _, _ => []
  | _ + 1, _, [] => []
  | n + 1, s, a :: rest =>
      let s2 := lcgNext s
      let i := s2 % (a :: rest).length
      (a :: rest).get ⟨i, Nat.mod_lt _ (Nat.succ_pos rest.length)⟩ ::
        seededGo n s2 ((a :: rest).eraseIdx i)

/-- Modelled from the spec: the seeded shuffle of a list of options. -/
def seededShuffle (s : Nat) (l : List α) : List α :=
  seededGo l.length s l

theorem perm_get_cons_eraseIdx :
    ∀ (l : List α) (i : Nat) (h : i < l.length),
      List.Perm (l.get ⟨i, h⟩ :: l.eraseIdx i) l
  | a :: rest, 0, _ => by simp [List.eraseIdx]
  | a :: rest, i + 1, h => by
      have h2 : i < rest.length := by simpa using h
      have ih := perm_get_cons_eraseIdx rest i h2
      show List.Perm (rest.get ⟨i, h2⟩ :: a :: rest.eraseIdx i) (a :: rest)
      exact (List.Perm.swap a (rest.get ⟨i, h2⟩) (rest.eraseIdx i)).trans
        (List.Perm.cons a ih)

theorem seededGo_perm (n : Nat) :
    ∀ (s : Nat) (l : List α), l.length ≤ n → List.Perm (seededGo n s l) l := by
  induction n with
  | zero =>
      intro s l hl
      have : l = [] := List.eq_nil_of_length_eq_zero (Nat.le_zero.mp hl)
      subst this
      exact List.Perm.refl _
  | succ n ih =>
      intro s l hl
      cases l with
      | nil => exact List.Perm.refl _
      | cons a rest =>
          have hi : lcgNext s % (a :: rest).length < (a :: rest).length :=
            Nat.mod_lt _ (Nat.succ_pos rest.length)
          have hlen : ((a :: rest).eraseIdx
              (lcgNext s % (a :: rest).length)).length ≤ n := by
            rw [List.length_eraseIdx, if_pos hi]
            simp only [List.length_cons] at hl ⊢
            omega
          exact (List.Perm.cons _
              (ih (lcgNext s)
                ((a :: rest).eraseIdx (lcgNext s % (a :: rest).length)) hlen)).trans
            (perm_get_cons_eraseIdx (a :: rest)
              (lcgNext s % (a :: rest).length) hi)

theorem seededShuffle_perm (s : Nat) (l : List α) :
    List.Perm (seededShuffle s l) l :=
  seededGo_perm l.length s l (Nat.le_refl _)

/-- Modelled from the spec: the Shuffle Engine (§4.1).  `entropy` models
the ambient random source of one call (fresh per process/call); when
`seed` is present the permutation is drawn from the seeded generator keyed
by `(mqId, itemId, seed)` and the ambient source is not consulted. -/
def shuffleEngine (entropy : Nat) (mqId itemId : String) (seed : Option Int)
    (opts : List α) : List α :=
  match seed with
  | some s => seededShuffle (seedMaterial mqId itemId s) opts
  | none => seededShuffle entropy opts

/-- C6: with a seed present, the Shuffle Engine's output is a pure function
of `(mqId, itemId, seed)` — two calls with different ambient randomness
(different processes, different times) return the identical permutation —
and that output is a permutation of the input options. -/
theorem shuffleEngine_deterministic (e1 e2 : Nat) (mqId itemId : String)
    (s : Int) (opts : List α) :
    shuffleEngine e1 mqId itemId (some s) opts
        = shuffleEngine e2 mqId itemId (some s) opts ∧
    List.Perm (shuffleEngine e1 mqId itemId (some s) opts) opts :=
  ⟨rfl, seededShuffle_perm _ _⟩

/-! Attempt Ledger.  Its implementation is not part of the repository
excerpt; it is modelled from the specification (§4.4, §6, §7). -/

/-- The two persisted representations of the attempt log: the
line-delimited JSON file and the CSV file (§6), each a sequence of
`AttemptRow`s. -/
structure Ledger where
  jsonl : List AttemptRow
  csv : List AttemptRow
deriving Repr, DecidableEq

/-- The caller-visible outcome of a submission's ledger write. -/
inductive SubmitOutcome
  | success
  | failure
deriving Repr, DecidableEq

/-- Modelled from the spec: the Attempt Ledger append (§4.4): one
submission's rows are appended to both representations together, in
order, or the write as a whole fails and the caller receives a failure
response with no partial rows visible (§7).  `writeOk` models whether the
underlying durable write succeeds. -/
def appendSubmission (writeOk : Bool) (L : Ledger) (rows : List AttemptRow) :
    SubmitOutcome × Ledger :=
  if writeOk then
    (SubmitOutcome.success, ⟨L.jsonl ++ rows, L.csv ++ rows⟩)
  else
    (SubmitOutcome.failure, L)

/-- C7: a submission of N rows is atomic: on success exactly the N rows are
appended, in order, to both the JSONL and the CSV representation; on a
write failure the caller receives a failure outcome and the ledger is
unchanged (no partial rows); and the two representations stay equal
whenever they were equal before. -/
theorem appendSubmission_atomic (ok : Bool) (L : Ledger)
    (rows : List AttemptRow) :
    (ok = true →
      (appendSubmission ok L rows).1 = SubmitOutcome.success ∧
      (appendSubmission ok L rows).2.jsonl = L.jsonl ++ rows ∧
      (appendSubmission ok L rows).2.csv = L.csv ++ rows ∧
      (appendSubmission ok L rows).2.jsonl.length
        = L.jsonl.length + rows.length) ∧
    (ok = false →
      (appendSubmission ok L rows).1 = SubmitOutcome.failure ∧
      (appendSubmission ok L rows).2 = L) ∧
    (L.jsonl = L.csv →
      (appendSubmission ok L rows).2.jsonl
        = (appendSubmission ok L rows).2.csv) := by
  refine ⟨?_, ?_, ?_⟩
  · intro h
    subst h
    exact ⟨rfl, rfl, rfl, by simp [appendSubmission]⟩
  · intro h
    subst h
    exact ⟨rfl, rfl⟩
  · intro h
    cases ok
    · simpa [appendSubmission] using h
    · simp [appendSubmission, h]

/-- Witness for C7 at a concrete ledger and submission. -/
theorem appendSubmission_atomic_witness :
    (appendSubmission true ⟨[], []⟩
        [⟨1, "s", "x", "m", "q", [1], 1, 1, 0, none, false, 1, 1⟩]).1
      = SubmitOutcome.success ∧
    (appendSubmission false ⟨[], []⟩
        [⟨1, "s", "x", "m", "q", [1], 1, 1, 0, none, false, 1, 1⟩]).2
      = ⟨[], []⟩ ∧
    (appendSubmission true ⟨[], []⟩
        [⟨1, "s", "x", "m", "q", [1], 1, 1, 0, none, false, 1, 1⟩]).2.jsonl
      = (appendSubmission true ⟨[], []⟩
        [⟨1, "s", "x", "m", "q", [1], 1, 1, 0, none, false, 1, 1⟩]).2.csv :=
  ⟨(appendSubmission_atomic true ⟨[], []⟩
      [⟨1, "s", "x", "m", "q", [1], 1, 1, 0, none, false, 1, 1⟩]).1 rfl |>.1,
   ((appendSubmission_atomic false ⟨[], []⟩
      [⟨1, "s", "x", "m", "q", [1], 1, 1, 0, none, false, 1, 1⟩]).2.1 rfl).2,
   (appendSubmission_atomic true ⟨[], []⟩
      [⟨1, "s", "x", "m", "q", [1], 1, 1, 0, none, false, 1, 1⟩]).2.2 rfl⟩

/-! Grading Dispatcher, `mcq_multi` strategy.  Its implementation is not
part of the repository excerpt; it is modelled from the specification
(§4.2, §8). -/

/-- Every key of `xs` occurs in `ys`. -/
def subsetB (xs ys : List String) : Bool :=
  xs.all (fun k => ys.contains k)

/-- The response set equals the key set exactly (as sets of option keys). -/
def setEqB (xs ys : List String) : Bool :=
  subsetB xs ys && subsetB ys xs

/-- The graded result of one `mcq_multi` item. -/
structure GradedMulti where
  correct : Bool
  marksAwarded : Nat
  errorClass : Option String
deriving Repr, DecidableEq

/-- Modelled from the spec: the `mcq_multi` strategy of the Grading
Dispatcher (§4.2): correct iff the response set equals the key set
exactly, full marks or zero (no partial credit); when incorrect the
`errorClass` distinguishes "missing-option" vs "extra-option" vs
"both". -/
def gradeMcqMulti (key response : List String) (marks : Nat) : GradedMulti :=
  if setEqB response key then ⟨true, marks, none⟩
  else
    let missing := key.any (fun k => !(response.contains k))
    let extra := response.any (fun k => !(key.contains k))
    ⟨false, 0,
      some (if missing && extra then "both"
            else if missing then "missing-option"
            else "extra-option")⟩

theorem subsetB_iff (xs ys : List String) :
    subsetB xs ys = true ↔ ∀ k ∈ xs, k ∈ ys := by
  simp [subsetB, List.all_eq_true, List.contains_iff_exists_mem_beq,
    beq_iff_eq]

theorem setEqB_iff (xs ys : List String) :
    setEqB xs ys = true ↔ ∀ k, k ∈ xs ↔ k ∈ ys := by
  rw [setEqB, Bool.and_eq_true, subsetB_iff, subsetB_iff]
  constructor
  · intro ⟨h1, h2⟩ k
    exact ⟨fun hk => h1 k hk, fun hk => h2 k hk⟩
  · intro h
    exact ⟨fun k hk => (h k).mp hk, fun k hk => (h k).mpr hk⟩

/-- C8: an `mcq_multi` response grades correct (with full marks) iff the
response set equals the answer-key set exactly; any missing key or any
extra key — in particular every strict subset and every superset of the
key — grades `correct = false` with `marksAwarded = 0`: no partial
credit. -/
theorem gradeMcqMulti_no_partial_credit (key response : List String)
    (marks : Nat) :
    ((gradeMcqMulti key response marks).correct = true ↔
      ∀ k, k ∈ response ↔ k ∈ key) ∧
    ((gradeMcqMulti key response marks).correct = true →
      (gradeMcqMulti key response marks).marksAwarded = marks) ∧
    (((∃ k, k ∈ key ∧ k ∉ response) ∨ (∃ k, k ∈ response ∧ k ∉ key)) →
      (gradeMcqMulti key response marks).correct = false ∧
      (gradeMcqMulti key response marks).marksAwarded = 0) := by
  by_cases hs : setEqB response key = true
  · have hiff := (setEqB_iff response key).mp hs
    refine ⟨?_, ?_, ?_⟩
    · simp [gradeMcqMulti, hs, hiff]
    · intro _
      simp [gradeMcqMulti, hs]
    · intro hbad
      exfalso
      rcases hbad with ⟨k, hk, hnk⟩ | ⟨k, hk, hnk⟩
      · exact hnk ((hiff k).mpr hk)
      · exact hnk ((hiff k).mp hk)
  · refine ⟨?_, ?_, ?_⟩
    · simp only [gradeMcqMulti, if_neg hs]
      constructor
      · intro hc; cases hc
      · intro h
        exact absurd ((setEqB_iff response key).mpr h) hs
    · intro hc
      simp only [gradeMcqMulti, if_neg hs] at hc
      cases hc
    · intro _
      simp [gradeMcqMulti, hs]

/-- Witness for C8: against key {A, C}, both the strict subset {A} and the
superset {A, C, B} grade incorrect with zero marks. -/
theorem gradeMcqMulti_no_partial_credit_witness :
    ((gradeMcqMulti ["A", "C"] ["A"] 2).correct = false ∧
      (gradeMcqMulti ["A", "C"] ["A"] 2).marksAwarded = 0) ∧
    ((gradeMcqMulti ["A", "C"] ["A", "C", "B"] 2).correct = false ∧
      (gradeMcqMulti ["A", "C"] ["A", "C", "B"] 2).marksAwarded = 0) :=
  ⟨(gradeMcqMulti_no_partial_credit ["A", "C"] ["A"] 2).2.2
      (Or.inl ⟨"C", by decide, by decide⟩),
   (gradeMcqMulti_no_partial_credit ["A", "C"] ["A", "C", "B"] 2).2.2
      (Or.inr ⟨"B", by decide, by decide⟩)⟩

end COS750
